import Mathlib

set_option maxRecDepth 8000

/-!
Verification of `docs/sphinx_pyodide/sphinx_pyodide/jsdoc.py`.

The file embeds the doclet categorizer (`PyodideAnalyzer.create_js_doclets`,
`PyodideAnalyzer.get_object_from_json`) and the two rendering directives
(`JsDocContent.run`, `JsDocSummary.run`, `JsDocSummary.extract_summary`,
`JsDocSummary.get_summary_row` / `get_summary_table`).

External library behaviour that the Python code merely calls is passed in as
function parameters:
  * `lookup` stands for `longname_to_path` followed by `self.inner.get_object`
    (both provided by sphinx_js);
  * `renderF` / `renderA` stand for `AutoFunctionRenderer.rst` /
    `AutoAttributeRenderer.rst`;
  * `sigOf` stands for `AutoFunctionRenderer._formal_params`;
  * `ext` stands for `sphinx.ext.autosummary.extract_summary`.

Python runtime errors (IndexError on `key[-1]` for an empty key list, and on
`obj.name[0]` for an empty name) are modelled by `Option`: `none` is a raised
exception, and a raised `KeyError` on an unknown `js_docs` key is likewise
`none`.
-/

/-- A JsDoc doclet record: the JSON fields that `create_js_doclets` and
`get_object_from_json` consume (`longname`, `kind`, the optional `access`
tag read by `json.get("access", None)`, and `description`). -/
structure Doclet where
  longname : String
  kind : String
  access : Option String
  description : String
deriving DecidableEq

/-- The sphinx_js IR object returned by `self.inner.get_object`, as far as this
layer reads or writes it: its `name`, its `description`, whether it is an
instance of the sphinx_js `Function` class (`isinstance(obj, Function)`), and
the `kind` attribute that `get_object_from_json` overwrites. -/
structure Obj where
  name : String
  description : String
  isFunction : Bool
  kind : String
deriving DecidableEq

/-- One value of `js_docs`: the
`OrderedDict([["attribute", []], ["function", []]])` built by `get_val`
(lines 60-61).  `attribute` is a Lean keyword, so the two dict entries are the
fields `attributeGroup` and `functionGroup`, in that (ordered-dict) order. -/
structure Bucket where
  attributeGroup : List Obj
  functionGroup : List Obj
deriving DecidableEq

/-- `get_val()` (lines 60-61): both sub-buckets start empty. -/
def get_val : Bucket := ⟨[], []⟩

/-- `self.js_docs` as built on line 63: a dict with exactly the keys
`"globals"`, `"pyodide"`, `"PyProxy"`. -/
structure JsDocs where
  globals : Bucket
  pyodide : Bucket
  PyProxy : Bucket
deriving DecidableEq

/-- The local `items` dict of `create_js_doclets` (line 64): initialised to
`{"PyProxy": []}`, so the `"globals"` and `"pyodide"` entries exist only once
assigned (hence `Option`), while `"PyProxy"` starts as the empty list. -/
structure Items where
  globals : Option (List Doclet)
  pyodide : Option (List Doclet)
  PyProxy : List Doclet
deriving DecidableEq

/-- Line 66: `key = [x for x in key if "/" not in x]` (every path component
containing a slash is dropped; `"/"` is a single character, so the Python
substring test is a character-membership test, taken on the component's
character list). -/
def filteredKey (key : List String) : List String :=
  key.filter (fun x => !(x.data.contains '/'))

/-- Line 67: `key[-1] == "globalThis"` (on the filtered key). -/
def isGlobalsKey (fk : List String) : Bool :=
  fk.getLast? == some "globalThis"

/-- Line 69: `key[0] == "pyodide." and key[-1] == "Module"` (on the filtered
key). -/
def isPyodideKey (fk : List String) : Bool :=
  (fk.head? == some "pyodide.") && (fk.getLast? == some "Module")

/-- Line 71: `key[0] == "pyproxy."` (on the filtered key). -/
def isPyProxyKey (fk : List String) : Bool :=
  fk.head? == some "pyproxy."

/-- One iteration of the loop at lines 65-72.  If the filtered key is empty,
`key[-1]` raises IndexError (`none`).  The three `if` statements are
independent and update disjoint dict entries, so they are modelled as one
simultaneous record update: `items["globals"] = group` and
`items["pyodide"] = group` assign (overwriting any earlier value), while
`items["PyProxy"] += group` concatenates. -/
def catStep (it : Items) (kg : List String × List Doclet) : Option Items :=
  let fk := filteredKey kg.1
  if fk.isEmpty then none
  else some
    { globals := if isGlobalsKey fk then some kg.2 else it.globals
      pyodide := if isPyodideKey fk then some kg.2 else it.pyodide
      PyProxy := if isPyProxyKey fk then it.PyProxy ++ kg.2 else it.PyProxy }

/-- The whole first loop of `create_js_doclets` (lines 64-72), iterating over
`self._doclets_by_class.items()`. -/
def buildItems (doclets_by_class : List (List String × List Doclet)) :
    Option Items :=
  doclets_by_class.foldlM catStep ⟨none, none, []⟩

/-- `get_object_from_json` (lines 43-53): compute the normalized kind from the
doclet's `kind` field, look the object up in the inner analyzer (`lookup`
stands for `longname_to_path` + `self.inner.get_object`), and overwrite the
object's `kind` attribute. -/
def get_object_from_json (lookup : Doclet → Obj) (json : Doclet) : Obj :=
  let kind := if json.kind == "function" then "function" else "attribute"
  let obj := lookup json
  { obj with kind := kind }

/-- Lines 79-80 at the character-list level:
`if obj.name[0] == '"' and obj.name[-1] == '"': obj.name = "[" + obj.name[1:-1] + "]"`.
On an empty name, `obj.name[0]` raises IndexError (`none`); `name[1:-1]`
drops the first and last character. -/
def normalizeNameData : List Char → Option (List Char)
  | [] => none
  | c :: rest =>
    if c == '"' && (c :: rest).getLast? == some '"' then
      some ('[' :: (rest.dropLast ++ [']']))
    else some (c :: rest)

/-- String wrapper for `normalizeNameData`. -/
def normalizeName (name : String) : Option String :=
  (normalizeNameData name.data).map String.mk

/-- Line 81: `self.js_docs[key][obj.kind].append(obj)`.  `obj.kind` was just
set to `"function"` or `"attribute"`, so the dict subscript selects one of the
two sub-buckets. -/
def bucketAppend (b : Bucket) (obj : Obj) : Bucket :=
  if obj.kind == "function" then
    { b with functionGroup := b.functionGroup ++ [obj] }
  else
    { b with attributeGroup := b.attributeGroup ++ [obj] }

/-- The body of the second loop of `create_js_doclets` (lines 74-81) for a
single doclet: skip it when `json.get("access", None) == "private"`, otherwise
look it up, rewrite a quoted name to bracket notation, and append it to the
sub-bucket named by its kind. -/
def processDoclet (lookup : Doclet → Obj) (b : Bucket) (json : Doclet) :
    Option Bucket :=
  if json.access == some "private" then some b
  else
    let obj := get_object_from_json lookup json
    match normalizeName obj.name with
    | none => none
    | some nm => some (bucketAppend b { obj with name := nm })

/-- The second loop of `create_js_doclets` (lines 74-81) over one `items`
entry. -/
def processGroup (lookup : Doclet → Obj) (b : Bucket) (value : List Doclet) :
    Option Bucket :=
  value.foldlM (processDoclet lookup) b

/-- `create_js_doclets` (lines 55-81).  Each `js_docs` bucket starts from
`get_val()` and is filled from its own `items` entry; an absent `"globals"` or
`"pyodide"` entry is never iterated, which is the same as iterating the empty
list (`Option.getD ... []`).  The `items` dict is iterated with `"PyProxy"`
first (insertion order), which the model mirrors; each entry only touches its
own bucket, so the order does not affect the result. -/
def create_js_doclets (lookup : Doclet → Obj)
    (doclets_by_class : List (List String × List Doclet)) : Option JsDocs := do
  let items ← buildItems doclets_by_class
  let pyProxyBucket ← processGroup lookup get_val items.PyProxy
  let globalsBucket ← processGroup lookup get_val (items.globals.getD [])
  let pyodideBucket ← processGroup lookup get_val (items.pyodide.getD [])
  some ⟨globalsBucket, pyodideBucket, pyProxyBucket⟩

/-- `app._sphinxjs_analyzer.js_docs[module]` (lines 120 and 143): the dict has
exactly the keys `"globals"`, `"pyodide"`, `"PyProxy"`; any other subscript
raises KeyError (`none`). -/
def js_docs_lookup (docs : JsDocs) (mod : String) : Option Bucket :=
  if mod == "globals" then some docs.globals
  else if mod == "pyodide" then some docs.pyodide
  else if mod == "PyProxy" then some docs.PyProxy
  else none

/-- `JsDocContent.get_rst` (lines 95-104): pick `AutoFunctionRenderer`
(`renderF`) for instances of `Function`, else `AutoAttributeRenderer`
(`renderA`). -/
def get_rst (renderF renderA : Obj → String) (obj : Obj) : String :=
  if obj.isFunction then renderF obj else renderA obj

/-- `JsDocContent.get_rst_for_group` (lines 106-107). -/
def get_rst_for_group (renderF renderA : Obj → String) (objects : List Obj) :
    List String :=
  objects.map (get_rst renderF renderA)

/-- `JsDocContent.run` (lines 118-126), up to the final `parse_rst` (docutils
machinery): the list `rst` of rst-chunk groups, which is
`[[".. js:module:: <module>"]]` followed by one chunk list per sub-bucket in
ordered-dict order (`attribute` then `function`).  An unknown module name is
the KeyError of `js_docs[module]`. -/
def jsDocContent_run (renderF renderA : Obj → String) (docs : JsDocs)
    (mod : String) : Option (List (List String)) :=
  match js_docs_lookup docs mod with
  | none => none
  | some b =>
    some ([".. js:module:: " ++ mod] ::
      [get_rst_for_group renderF renderA b.attributeGroup,
       get_rst_for_group renderF renderA b.functionGroup])

/-- The string `JsDocContent.run` hands to `parse_rst` (line 125):
`"\n\n".join(["\n\n".join(r) for r in rst])`. -/
def jsDocContent_run_joined (renderF renderA : Obj → String) (docs : JsDocs)
    (mod : String) : Option String :=
  (jsDocContent_run renderF renderA docs mod).map
    (fun rst => String.intercalate "\n\n" (rst.map (String.intercalate "\n\n")))

/-- Python `str.replace(old, new)` on character lists: scan left to right,
replacing each non-overlapping occurrence of `old` and skipping past the
replaced text.  Implemented with a fuel counter equal to the input length
(each step consumes at least one character when `old` is non-empty). -/
def pyReplaceF : Nat → List Char → List Char → List Char → List Char
  | _, [], _, _ => []
  | 0, s, _, _ => s
  | fuel + 1, c :: t, old, new =>
    if old.isPrefixOf (c :: t) && !old.isEmpty then
      new ++ pyReplaceF fuel ((c :: t).drop old.length) old new
    else
      c :: pyReplaceF fuel t old new

/-- Python `str.replace` (both call sites in `extract_summary` pass a
non-empty `old`; for an empty `old` Python would intersperse `new`, a case
never reached here, where this model returns `s` unchanged). -/
def pyReplace (s old new : List Char) : List Char :=
  pyReplaceF s.length s old new

/-- `str.replace` on strings. -/
def pyReplaceStr (s old new : String) : String :=
  String.mk (pyReplace s.data old.data new.data)

/-- Line 167: `colon_esc = "esccolon\\\xafhoa:"` — the characters
`esccolon`, a backslash, U+00AF, `hoa`, and a trailing colon. -/
def colon_esc : String := "esccolon\\\xAFhoa:"

/-- `JsDocSummary.extract_summary` (lines 163-170): escape every colon with
`colon_esc`, run the library `extract_summary` (`ext`), then replace the
escape token back with a colon. -/
def extract_summary_model (ext : String → String) (descr : String) : String :=
  pyReplaceStr (ext (pyReplaceStr descr ":" colon_esc)) colon_esc ":"

/-- The tuple built by `JsDocSummary.get_summary_row` (lines 181-192). -/
structure SummaryRow where
  display_name : String
  sig : String
  summary : String
  link_name : String
deriving DecidableEq

/-- `JsDocSummary.get_sig` (lines 172-179): the signature for `Function`
instances (via `sigOf`, standing for `_formal_params`), else `""`. -/
def get_sig (sigOf : Obj → String) (obj : Obj) : String :=
  if obj.isFunction then sigOf obj else ""

/-- `JsDocSummary.get_summary_row` (lines 181-192). -/
def get_summary_row (sigOf : Obj → String) (ext : String → String)
    (pkgname : String) (obj : Obj) : SummaryRow :=
  { display_name := obj.name
    sig := get_sig sigOf obj
    summary := extract_summary_model ext obj.description
    link_name := pkgname ++ "." ++ obj.name }

/-- `JsDocSummary.get_summary_table` (lines 194-198). -/
def get_summary_table (sigOf : Obj → String) (ext : String → String)
    (pkgname : String) (group : List Obj) : List SummaryRow :=
  group.map (get_summary_row sigOf ext pkgname)

/-- The docutils nodes `JsDocSummary.run` appends, abstracted: a bold heading
(`format_heading`) or a summary table carrying its rows (`format_table` also
emits a `tabular_col_spec` companion node; the table's rows are what the
claims are about). -/
inductive SummaryNode where
  | heading : String → SummaryNode
  | table : List SummaryRow → SummaryNode
deriving DecidableEq

/-- Python `str.title()` as used on line 147; on the single lowercase words
`"attribute"` and `"function"` it agrees with capitalizing the first
letter. -/
def pyTitle (s : String) : String := s.capitalize

/-- `JsDocSummary.run` (lines 140-151): for each sub-bucket in ordered-dict
order (`attribute` then `function`): skip it entirely when empty, otherwise
emit the heading `group_name.title() + "s:"` followed by the table of its
summary rows.  An unknown module name is the KeyError of
`js_docs[module]`. -/
def jsDocSummary_run (sigOf : Obj → String) (ext : String → String)
    (docs : JsDocs) (mod : String) : Option (List SummaryNode) :=
  match js_docs_lookup docs mod with
  | none => none
  | some b =>
    let part := fun (group_name : String) (group : List Obj) =>
      if group.isEmpty then ([] : List SummaryNode)
      else [SummaryNode.heading (pyTitle group_name ++ "s:"),
            SummaryNode.table (get_summary_table sigOf ext mod group)]
    some (part "attribute" b.attributeGroup ++ part "function" b.functionGroup)

/-- Executable substring test (used to state that a summary contains the
escape token). -/
def hasSubstr : List Char → List Char → Bool
  | [], pat => pat.isEmpty
  | c :: t, pat => pat.isPrefixOf (c :: t) || hasSubstr t pat

/-- The private-access filter of line 76, as a keep-predicate. -/
def nonPrivate (j : Doclet) : Bool := !(j.access == some "private")

/-- A doclet that the categorizer keeps and files under `"attribute"`. -/
def keepAttr (j : Doclet) : Bool :=
  nonPrivate j && !(j.kind == "function")

/-- A doclet that the categorizer keeps and files under `"function"`. -/
def keepFun (j : Doclet) : Bool :=
  nonPrivate j && (j.kind == "function")

/-- The object a retained doclet contributes to its sub-bucket: the looked-up
object with the normalized kind and (when the name is non-empty) the
display-normalized name. -/
def objOf (lookup : Doclet → Obj) (j : Doclet) : Obj :=
  let o := get_object_from_json lookup j
  { o with name := (normalizeName o.name).getD o.name }

/-- A concrete inner-analyzer lookup used by the witnesses: the IR object's
name is the doclet's `longname`, and it is a `Function` instance exactly when
the doclet kind is `"function"`. -/
def demoLookup (j : Doclet) : Obj :=
  { name := j.longname
    description := j.description
    isFunction := j.kind == "function"
    kind := "" }

/-- Witness doclet: a non-private function named `foo`. -/
def dFoo : Doclet := ⟨"foo", "function", none, "Does foo."⟩

/-- Witness doclet: a non-private member whose name is the quoted literal
`"bar"`. -/
def dBar : Doclet := ⟨"\"bar\"", "member", none, "Bar attr."⟩

/-- Witness doclet: a private function. -/
def dSecret : Doclet := ⟨"secret", "function", some "private", "hidden"⟩

/-- The categorizer output on the single group
`[(["globalThis"], [dFoo, dBar, dSecret])]` with `demoLookup`. -/
def demoDocs : JsDocs :=
  ⟨⟨[⟨"[bar]", "Bar attr.", false, "attribute"⟩],
    [⟨"foo", "Does foo.", true, "function"⟩]⟩,
   ⟨[], []⟩, ⟨[], []⟩⟩

/-- Pointwise removal of private doclets from the `items` entries (used to
state that private doclets contribute nothing to the output). -/
def filterItems (it : Items) : Items :=
  ⟨it.globals.map (List.filter nonPrivate),
   it.pyodide.map (List.filter nonPrivate),
   it.PyProxy.filter nonPrivate⟩

/-- Every object of a bucket carries the kind tag of the sub-bucket holding
it. -/
def kindOK (b : Bucket) : Prop :=
  (∀ o ∈ b.attributeGroup, o.kind = "attribute") ∧
  (∀ o ∈ b.functionGroup, o.kind = "function")

/-- Structural form of colon-escaping: each `':'` becomes `stem ++ [':']`,
every other character is kept (proved equal to
`pyReplace s [':'] (stem ++ [':'])`). -/
def escSpec (stem : List Char) : List Char → List Char
  | [] => []
  | c :: t => if c = ':' then stem ++ ':' :: escSpec stem t else c :: escSpec stem t

/-- The escape token of line 167 without its trailing colon. -/
def escStem : List Char := "esccolon\\\xAFhoa".data

/-- C1: one loop iteration of the categorizer assigns a doclet group exactly
as the claim states, on the group's namespace/class path (the key with
filename components — those containing a slash — stripped, line 66): a path
ending in `globalThis` becomes the `"globals"` entry, a path starting with
`pyodide.` and ending in `Module` becomes the `"pyodide"` entry, a path
starting with `pyproxy.` is concatenated onto the `"PyProxy"` entry, and a
group matching none of these leaves every entry unchanged. -/
theorem claim1_group_assignment (it : Items) (key : List String)
    (group : List Doclet) (h : filteredKey key ≠ []) :
    ∃ it2, catStep it (key, group) = some it2 ∧
      (isGlobalsKey (filteredKey key) = true → it2.globals = some group) ∧
      (isGlobalsKey (filteredKey key) = false → it2.globals = it.globals) ∧
      (isPyodideKey (filteredKey key) = true → it2.pyodide = some group) ∧
      (isPyodideKey (filteredKey key) = false → it2.pyodide = it.pyodide) ∧
      (isPyProxyKey (filteredKey key) = true →
        it2.PyProxy = it.PyProxy ++ group) ∧
      (isPyProxyKey (filteredKey key) = false → it2.PyProxy = it.PyProxy) ∧
      (isGlobalsKey (filteredKey key) = false ∧
       isPyodideKey (filteredKey key) = false ∧
       isPyProxyKey (filteredKey key) = false → it2 = it) := by
  have hne : (filteredKey key).isEmpty = false := by
    cases hk : filteredKey key with
    | nil => exact absurd hk h
    | cons a l => rfl
  refine ⟨{ globals := if isGlobalsKey (filteredKey key) then some group
              else it.globals
            pyodide := if isPyodideKey (filteredKey key) then some group
              else it.pyodide
            PyProxy := if isPyProxyKey (filteredKey key) then
              it.PyProxy ++ group else it.PyProxy },
          ?_, ?_, ?_, ?_, ?_, ?_, ?_, ?_⟩
  · simp [catStep, hne]
  · intro hg; simp [hg]
  · intro hg; simp [hg]
  · intro hg; simp [hg]
  · intro hg; simp [hg]
  · intro hg; simp [hg]
  · intro hg; simp [hg]
  · rintro ⟨h1, h2, h3⟩; simp [h1, h2, h3]

/-- Witness for C1: the group keyed `["pyodide.", "Module"]` becomes the
`"pyodide"` entry and leaves the other two entries alone. -/
theorem claim1_witness :
    catStep ⟨none, none, []⟩ (["pyodide.", "Module"], [dFoo]) =
      some ⟨none, some [dFoo], []⟩ := by
  obtain ⟨it2, heq, _, hg, hp, _, _, hpr, _⟩ :=
    claim1_group_assignment ⟨none, none, []⟩ ["pyodide.", "Module"] [dFoo]
      (by decide)
  have e1 : it2.globals = none := hg (by decide)
  have e2 : it2.pyodide = some [dFoo] := hp (by decide)
  have e3 : it2.PyProxy = [] := hpr (by decide)
  rw [heq]
  cases it2
  simp only at e1 e2 e3
  rw [e1, e2, e3]

/-- C4 counterexample: a group whose key has no slash-free component (here
`["a/b"]`) makes the filtered key empty, so `key[-1]` on line 67 raises
IndexError (modelled by `none`): the categorizer does not run to completion
on every input. -/
theorem claim4_counterexample :
    create_js_doclets demoLookup [(["a/b"], [dFoo])] = none := by decide

/-- C4 amended: provided a group's key keeps at least one slash-free
component, an unmatched group is omitted from every bucket and causes no
failure — prepending it to any input leaves the categorizer's output
unchanged.  (A key with no slash-free component instead raises IndexError,
see the counterexample.) -/
theorem claim4_amended (lookup : Doclet → Obj) (key : List String)
    (group : List Doclet) (rest : List (List String × List Doclet))
    (hne : filteredKey key ≠ [])
    (h1 : isGlobalsKey (filteredKey key) = false)
    (h2 : isPyodideKey (filteredKey key) = false)
    (h3 : isPyProxyKey (filteredKey key) = false) :
    create_js_doclets lookup ((key, group) :: rest) =
      create_js_doclets lookup rest := by
  have hne2 : (filteredKey key).isEmpty = false := by
    cases hk : filteredKey key with
    | nil => exact absurd hk hne
    | cons a l => rfl
  have hstep : catStep ⟨none, none, []⟩ (key, group) = some ⟨none, none, []⟩ := by
    simp [catStep, hne2, h1, h2, h3]
  unfold create_js_doclets buildItems
  rw [List.foldlM_cons, hstep]
  rfl

/-- Witness for C4 (amended): the unmatched group keyed `["unmatched"]` has
no effect on the categorizer's output. -/
theorem claim4_witness :
    ((filteredKey ["unmatched"] == []) = false) ∧
    isGlobalsKey (filteredKey ["unmatched"]) = false ∧
    isPyodideKey (filteredKey ["unmatched"]) = false ∧
    isPyProxyKey (filteredKey ["unmatched"]) = false ∧
    create_js_doclets demoLookup [(["unmatched"], [dFoo])] =
      create_js_doclets demoLookup [] := by
  refine ⟨by decide, by decide, by decide, by decide, ?_⟩
  exact claim4_amended demoLookup ["unmatched"] [dFoo] []
    (by decide) (by decide) (by decide) (by decide)

/-- C5 counterexample: the key `["pyproxy.", "globalThis"]` satisfies both
the globals predicate (last component `globalThis`) and the pyproxy predicate
(first component `pyproxy.`), and one categorizer step files its group under
both the `"globals"` and the `"PyProxy"` entries — refuting "at most one of
the three bucket-selection predicates holds". -/
theorem claim5_counterexample :
    isGlobalsKey ["pyproxy.", "globalThis"] = true ∧
    isPyProxyKey ["pyproxy.", "globalThis"] = true ∧
    catStep ⟨none, none, []⟩ (["pyproxy.", "globalThis"], [dFoo]) =
      some ⟨some [dFoo], none, [dFoo]⟩ :=
  ⟨by decide, by decide, by decide⟩

/-- C5 amended: the pyodide predicate excludes each of the other two (a key
cannot end in both `globalThis` and `Module`, nor start with both `pyodide.`
and `pyproxy.`), but the globals and pyproxy predicates can hold together
(see the counterexample), in which case the group is placed in both
buckets. -/
theorem claim5_amended (fk : List String) :
    (isGlobalsKey fk && isPyodideKey fk) = false ∧
    (isPyodideKey fk && isPyProxyKey fk) = false := by
  constructor
  · cases hg : isGlobalsKey fk with
    | false => simp [hg]
    | true =>
      have hl : fk.getLast? = some "globalThis" := by
        unfold isGlobalsKey at hg
        exact eq_of_beq hg
      have h2 : ((some "globalThis" : Option String) == some "Module") = false := by
        decide
      simp [isPyodideKey, hl, h2]
  · cases hp : isPyProxyKey fk with
    | false => simp [hp]
    | true =>
      have hh : fk.head? = some "pyproxy." := by
        unfold isPyProxyKey at hp
        exact eq_of_beq hp
      have h2 : ((some "pyproxy." : Option String) == some "pyodide.") = false := by
        decide
      simp [isPyodideKey, hh, h2]

/-- C10: calling either directive with a module argument other than
`"globals"`, `"pyodide"`, `"PyProxy"` hits the KeyError of
`js_docs[module]` (modelled by `none`): no fallback, no empty output, no
error message of this layer's own. -/
theorem claim10_unknown_bucket (renderF renderA sigOf : Obj → String)
    (ext : String → String) (docs : JsDocs) (mod : String)
    (h1 : mod ≠ "globals") (h2 : mod ≠ "pyodide") (h3 : mod ≠ "PyProxy") :
    jsDocContent_run renderF renderA docs mod = none ∧
    jsDocSummary_run sigOf ext docs mod = none := by
  have e1 : (mod == "globals") = false := beq_eq_false_iff_ne.mpr h1
  have e2 : (mod == "pyodide") = false := beq_eq_false_iff_ne.mpr h2
  have e3 : (mod == "PyProxy") = false := beq_eq_false_iff_ne.mpr h3
  have hl : js_docs_lookup docs mod = none := by
    simp [js_docs_lookup, e1, e2, e3]
  exact ⟨by simp [jsDocContent_run, hl], by simp [jsDocSummary_run, hl]⟩

/-- Witness for C10: the unknown module name `"bogus"` makes both directives
raise KeyError. -/
theorem claim10_witness :
    (("bogus" == "globals") = false) ∧ (("bogus" == "pyodide") = false) ∧
    (("bogus" == "PyProxy") = false) ∧
    jsDocContent_run (fun o => o.name) (fun o => o.name) demoDocs "bogus" =
      none ∧
    jsDocSummary_run (fun o => o.name) id demoDocs "bogus" = none := by
  have h := claim10_unknown_bucket (fun o => o.name) (fun o => o.name)
    (fun o => o.name) id demoDocs "bogus"
    (by decide) (by decide) (by decide)
  exact ⟨by decide, by decide, by decide, h.1, h.2⟩

/-- C6: for every doclet the categorizer retains (it passed the private
filter and is stored), a name that starts and ends with a double quote is
stored as the inner text wrapped in square brackets, and any other
(non-empty) name is stored unchanged.  (An empty looked-up name would raise
IndexError on `obj.name[0]` and never be stored.) -/
theorem claim6_quoted_names (lookup : Doclet → Obj) (b : Bucket)
    (json : Doclet) (hpriv : (json.access == some "private") = false) :
    ((get_object_from_json lookup json).name.data.head? = some '"' →
     (get_object_from_json lookup json).name.data.getLast? = some '"' →
     processDoclet lookup b json = some (bucketAppend b
       { get_object_from_json lookup json with
         name := String.mk ('[' ::
           (((get_object_from_json lookup json).name.data.drop 1).dropLast
             ++ [']'])) })) ∧
    ((get_object_from_json lookup json).name.data ≠ [] →
     ¬((get_object_from_json lookup json).name.data.head? = some '"' ∧
       (get_object_from_json lookup json).name.data.getLast? = some '"') →
     processDoclet lookup b json =
       some (bucketAppend b (get_object_from_json lookup json))) := by
  constructor
  · intro hh hl
    cases hd : (get_object_from_json lookup json).name.data with
    | nil => rw [hd] at hh; cases hh
    | cons c rest =>
      rw [hd] at hh hl
      have hc : c = '"' := by
        simpa using hh
      subst hc
      have hn : normalizeName (get_object_from_json lookup json).name =
          some (String.mk ('[' :: (rest.dropLast ++ [']']))) := by
        unfold normalizeName
        rw [hd]
        simp [normalizeNameData, hl]
      simp [processDoclet, hpriv, hn, hd]
  · intro hne hq
    cases hd : (get_object_from_json lookup json).name.data with
    | nil => exact absurd hd hne
    | cons c rest =>
      have hcond : (c == '"' && ((c :: rest).getLast? == some '"')) = false := by
        cases hc : (c == '"') with
        | false => simp
        | true =>
          have : c = '"' := eq_of_beq hc
          subst this
          cases hg : ((('"' :: rest).getLast? : Option Char) == some '"') with
          | false => simp
          | true =>
            exfalso
            exact hq ⟨by rw [hd]; rfl, by rw [hd]; exact eq_of_beq hg⟩
      have hn : normalizeName (get_object_from_json lookup json).name =
          some (get_object_from_json lookup json).name := by
        unfold normalizeName
        rw [hd]
        simp only [normalizeNameData, hcond, Bool.false_eq_true, if_false,
          Option.map_some]
        rw [← hd]
        rfl
      simp [processDoclet, hpriv, hn]

/-- Witness for C6: the non-private doclet named `"bar"` (a quoted literal)
is stored with display name `[bar]`. -/
theorem claim6_witness :
    ((dBar.access == some "private") = false) ∧
    processDoclet demoLookup get_val dBar =
      some (bucketAppend get_val
        { get_object_from_json demoLookup dBar with name := "[bar]" }) := by
  refine ⟨by decide, ?_⟩
  have h := (claim6_quoted_names demoLookup get_val dBar (by decide)).1
    (by decide) (by decide)
  exact h

/-- Skipping a private doclet (line 76-77) leaves the bucket untouched. -/
theorem processDoclet_private (lookup : Doclet → Obj) (b : Bucket) (j : Doclet)
    (h : (j.access == some "private") = true) :
    processDoclet lookup b j = some b := by
  simp [processDoclet, h]

/-- Unfolding one step of the per-group loop. -/
theorem processGroup_cons (lookup : Doclet → Obj) (b : Bucket) (j : Doclet)
    (rest : List Doclet) :
    processGroup lookup b (j :: rest) =
      (processDoclet lookup b j).bind
        (fun b2 => processGroup lookup b2 rest) := by
  rfl

/-- Removing the private doclets from a group does not change the result of
processing it. -/
theorem processGroup_filter (lookup : Doclet → Obj) :
    ∀ (value : List Doclet) (b : Bucket),
      processGroup lookup b (value.filter nonPrivate) =
        processGroup lookup b value := by
  intro value
  induction value with
  | nil => intro b; rfl
  | cons j rest ih =>
    intro b
    cases hp : nonPrivate j with
    | false =>
      have hpriv : (j.access == some "private") = true := by
        simpa [nonPrivate] using hp
      rw [List.filter_cons, hp, processGroup_cons,
        processDoclet_private lookup b j hpriv]
      simp only [Bool.false_eq_true, if_false, Option.some_bind]
      exact ih b
    | true =>
      rw [List.filter_cons, hp, if_pos rfl, processGroup_cons,
        processGroup_cons]
      cases hdj : processDoclet lookup b j with
      | none => rfl
      | some b2 => simpa using ih b2

/-- One categorizer step commutes with removing private doclets. -/
theorem catStep_filter (it : Items) (kg : List String × List Doclet) :
    catStep (filterItems it) (kg.1, kg.2.filter nonPrivate) =
      (catStep it kg).map filterItems := by
  unfold catStep filterItems
  cases he : (filteredKey kg.1).isEmpty with
  | true => simp [he]
  | false =>
    simp only [he, Bool.false_eq_true, if_false, Option.map_some]
    simp [apply_ite (Option.map (List.filter nonPrivate)),
      apply_ite (List.filter nonPrivate), List.filter_append]

/-- The whole first loop commutes with removing private doclets. -/
theorem foldlM_catStep_filter :
    ∀ (groups : List (List String × List Doclet)) (it : Items),
      (groups.map (fun kg => (kg.1, kg.2.filter nonPrivate))).foldlM catStep
          (filterItems it) =
        (groups.foldlM catStep it).map filterItems := by
  intro groups
  induction groups with
  | nil => intro it; rfl
  | cons kg rest ih =>
    intro it
    rw [List.map_cons, List.foldlM_cons, List.foldlM_cons, catStep_filter it kg]
    cases hc : catStep it kg with
    | none => rfl
    | some it2 => simpa using ih it2

/-- `create_js_doclets` unfolded once the `items` dict is known. -/
theorem create_unfold (lookup : Doclet → Obj)
    (groups : List (List String × List Doclet)) (items : Items)
    (h : buildItems groups = some items) :
    create_js_doclets lookup groups =
      (processGroup lookup get_val items.PyProxy).bind (fun pr =>
        (processGroup lookup get_val (items.globals.getD [])).bind (fun g =>
          (processGroup lookup get_val (items.pyodide.getD [])).bind (fun p =>
            some ⟨g, p, pr⟩))) := by
  unfold create_js_doclets
  rw [h]
  rfl

/-- C2: private doclets appear in no sub-bucket of any bucket — removing
every private doclet from every input group leaves the categorizer's output
unchanged, for every input set of doclet groups and every inner-analyzer
lookup. -/
theorem claim2_private_dropped (lookup : Doclet → Obj)
    (groups : List (List String × List Doclet)) :
    create_js_doclets lookup
        (groups.map (fun kg => (kg.1, kg.2.filter nonPrivate))) =
      create_js_doclets lookup groups := by
  have hb : buildItems (groups.map (fun kg => (kg.1, kg.2.filter nonPrivate))) =
      (buildItems groups).map filterItems := by
    unfold buildItems
    exact foldlM_catStep_filter groups ⟨none, none, []⟩
  cases hi : buildItems groups with
  | none =>
    have hL : create_js_doclets lookup
        (groups.map (fun kg => (kg.1, kg.2.filter nonPrivate))) = none := by
      unfold create_js_doclets
      rw [hb, hi]
      rfl
    have hR : create_js_doclets lookup groups = none := by
      unfold create_js_doclets
      rw [hi]
      rfl
    rw [hL, hR]
  | some items =>
    have hbi : buildItems (groups.map (fun kg => (kg.1, kg.2.filter nonPrivate)))
        = some (filterItems items) := by
      rw [hb, hi]
      rfl
    rw [create_unfold lookup _ _ hbi, create_unfold lookup _ _ hi]
    have h1 : processGroup lookup get_val (filterItems items).PyProxy =
        processGroup lookup get_val items.PyProxy :=
      processGroup_filter lookup items.PyProxy get_val
    have h2 : processGroup lookup get_val ((filterItems items).globals.getD []) =
        processGroup lookup get_val (items.globals.getD []) := by
      have e : (filterItems items).globals =
          items.globals.map (List.filter nonPrivate) := rfl
      rw [e]
      cases hg : items.globals with
      | none => rfl
      | some g => exact processGroup_filter lookup g get_val
    have h3 : processGroup lookup get_val ((filterItems items).pyodide.getD []) =
        processGroup lookup get_val (items.pyodide.getD []) := by
      have e : (filterItems items).pyodide =
          items.pyodide.map (List.filter nonPrivate) := rfl
      rw [e]
      cases hg : items.pyodide with
      | none => rfl
      | some g => exact processGroup_filter lookup g get_val
    rw [h1, h2, h3]

/-- Appending an object whose kind matches a sub-bucket keeps `kindOK`. -/
theorem bucketAppend_kindOK (b : Bucket) (o : Obj) (hb : kindOK b)
    (ho : o.kind = "attribute" ∨ o.kind = "function") :
    kindOK (bucketAppend b o) := by
  unfold bucketAppend
  cases hk : (o.kind == "function") with
  | true =>
    have hko : o.kind = "function" := eq_of_beq hk
    simp only [if_pos rfl]
    refine ⟨hb.1, fun x hx => ?_⟩
    rcases List.mem_append.mp hx with h | h
    · exact hb.2 x h
    · rw [List.mem_singleton.mp h, hko]
  | false =>
    have hko : o.kind = "attribute" := by
      rcases ho with h | h
      · exact h
      · rw [h] at hk; cases hk
    simp only [Bool.false_eq_true, if_false]
    refine ⟨fun x hx => ?_, hb.2⟩
    rcases List.mem_append.mp hx with h | h
    · exact hb.1 x h
    · rw [List.mem_singleton.mp h, hko]

/-- One iteration of the doclet loop preserves `kindOK`. -/
theorem processDoclet_kindOK (lookup : Doclet → Obj) (b : Bucket) (j : Doclet)
    (b2 : Bucket) (h : processDoclet lookup b j = some b2) (hb : kindOK b) :
    kindOK b2 := by
  unfold processDoclet at h
  cases hp : (j.access == some "private") with
  | true =>
    simp only [hp, if_true, Option.some.injEq] at h
    rw [← h]
    exact hb
  | false =>
    simp only [hp, Bool.false_eq_true, if_false] at h
    cases hn : normalizeName (get_object_from_json lookup j).name with
    | none => rw [hn] at h; cases h
    | some nm =>
      rw [hn] at h
      simp only [Option.some.injEq] at h
      rw [← h]
      apply bucketAppend_kindOK _ _ hb
      have hkind : ({ get_object_from_json lookup j with name := nm } : Obj).kind
          = if j.kind == "function" then "function" else "attribute" := rfl
      rw [hkind]
      cases j.kind == "function" with
      | true => right; rfl
      | false => left; rfl

/-- The per-group loop preserves `kindOK`. -/
theorem processGroup_kindOK (lookup : Doclet → Obj) :
    ∀ (value : List Doclet) (b b2 : Bucket),
      processGroup lookup b value = some b2 → kindOK b → kindOK b2 := by
  intro value
  induction value with
  | nil =>
    intro b b2 h hb
    have h2 : b = b2 := Option.some.inj h
    rw [← h2]
    exact hb
  | cons j rest ih =>
    intro b b2 h hb
    rw [processGroup_cons] at h
    cases hd : processDoclet lookup b j with
    | none => rw [hd] at h; cases h
    | some b1 =>
      rw [hd] at h
      exact ih b1 b2 h (processDoclet_kindOK lookup b j b1 hd hb)

/-- C3: the categorizer sets a retained doclet's final kind tag to
`"function"` exactly when the doclet's original `kind` field is
`"function"` and to `"attribute"` otherwise, and every object stored in any
bucket of the output sits in the sub-bucket named by its kind tag (so every
stored kind is one of the two and matches its sub-bucket). -/
theorem claim3_kind_normalized (lookup : Doclet → Obj) (json : Doclet) :
    ((get_object_from_json lookup json).kind =
      if json.kind == "function" then "function" else "attribute") ∧
    ∀ (groups : List (List String × List Doclet)) (docs : JsDocs),
      create_js_doclets lookup groups = some docs →
      kindOK docs.globals ∧ kindOK docs.pyodide ∧ kindOK docs.PyProxy := by
  constructor
  · rfl
  · intro groups docs hc
    have h0 : kindOK get_val :=
      ⟨fun o ho => absurd ho (List.not_mem_nil o),
       fun o ho => absurd ho (List.not_mem_nil o)⟩
    cases hi : buildItems groups with
    | none =>
      unfold create_js_doclets at hc
      rw [hi] at hc
      cases hc
    | some items =>
      rw [create_unfold lookup groups items hi] at hc
      rcases Option.bind_eq_some.mp hc with ⟨pr, hpr, hc2⟩
      rcases Option.bind_eq_some.mp hc2 with ⟨g, hg, hc3⟩
      rcases Option.bind_eq_some.mp hc3 with ⟨p, hp, hc4⟩
      have hdocs : docs = ⟨g, p, pr⟩ := (Option.some.inj hc4).symm
      rw [hdocs]
      exact ⟨processGroup_kindOK lookup _ _ _ hg h0,
             processGroup_kindOK lookup _ _ _ hp h0,
             processGroup_kindOK lookup _ _ _ hpr h0⟩

/-- Witness for C3: on a concrete run, the doclet kinds in the output match
their sub-buckets. -/
theorem claim3_witness :
    ((get_object_from_json demoLookup dFoo).kind =
      if dFoo.kind == "function" then "function" else "attribute") ∧
    create_js_doclets demoLookup [(["globalThis"], [dFoo, dBar, dSecret])] =
      some demoDocs ∧
    demoDocs.globals.attributeGroup.all (fun o => o.kind == "attribute") = true ∧
    demoDocs.globals.functionGroup.all (fun o => o.kind == "function") = true := by
  have h := claim3_kind_normalized demoLookup dFoo
  have hrun : create_js_doclets demoLookup
      [(["globalThis"], [dFoo, dBar, dSecret])] = some demoDocs := by decide
  have hk := h.2 [(["globalThis"], [dFoo, dBar, dSecret])] demoDocs hrun
  refine ⟨h.1, hrun, ?_, ?_⟩
  · exact List.all_eq_true.mpr (fun o ho => beq_iff_eq.mpr (hk.1.1 o ho))
  · exact List.all_eq_true.mpr (fun o ho => beq_iff_eq.mpr (hk.1.2 o ho))

/-- On a non-empty name the normalization succeeds, yielding the display
name. -/
theorem normalizeName_eq_getD (name : String) (h : name.data ≠ []) :
    normalizeName name = some ((normalizeName name).getD name) := by
  cases hd : name.data with
  | nil => exact absurd hd h
  | cons c cs =>
    unfold normalizeName
    rw [hd]
    simp only [normalizeNameData]
    split <;> simp

/-- A non-private doclet with a non-empty looked-up name is appended as
`objOf lookup j`. -/
theorem processDoclet_objOf (lookup : Doclet → Obj) (b : Bucket) (j : Doclet)
    (hpriv : (j.access == some "private") = false)
    (hname : (lookup j).name.data ≠ []) :
    processDoclet lookup b j = some (bucketAppend b (objOf lookup j)) := by
  have hnm := normalizeName_eq_getD (get_object_from_json lookup j).name hname
  unfold processDoclet
  simp only [hpriv, Bool.false_eq_true, if_false]
  rw [hnm]
  rfl

/-- Order-preserving characterization of the per-group loop: the appended
objects are exactly the kept doclets of each kind, mapped through `objOf`, in
input order. -/
theorem processGroup_char (lookup : Doclet → Obj) :
    ∀ (value : List Doclet) (b : Bucket),
      (∀ j ∈ value, nonPrivate j = true → (lookup j).name.data ≠ []) →
      processGroup lookup b value = some
        { attributeGroup :=
            b.attributeGroup ++ (value.filter keepAttr).map (objOf lookup)
          functionGroup :=
            b.functionGroup ++ (value.filter keepFun).map (objOf lookup) } := by
  intro value
  induction value with
  | nil => intro b h; simp [processGroup, List.foldlM_nil]
  | cons j rest ih =>
    intro b h
    have hrest : ∀ x ∈ rest, nonPrivate x = true → (lookup x).name.data ≠ [] :=
      fun x hx => h x (List.mem_cons_of_mem j hx)
    rw [processGroup_cons]
    cases hp : nonPrivate j with
    | false =>
      have hpriv : (j.access == some "private") = true := by
        simpa [nonPrivate] using hp
      have hk1 : keepAttr j = false := by simp [keepAttr, hp]
      have hk2 : keepFun j = false := by simp [keepFun, hp]
      rw [processDoclet_private lookup b j hpriv]
      simp only [Option.some_bind, List.filter_cons, hk1, hk2,
        Bool.false_eq_true, if_false]
      exact ih b hrest
    | true =>
      have hpriv : (j.access == some "private") = false := by
        simpa [nonPrivate] using hp
      have hname : (lookup j).name.data ≠ [] :=
        h j (List.mem_cons_self j rest) hp
      rw [processDoclet_objOf lookup b j hpriv hname]
      simp only [Option.some_bind, List.filter_cons]
      cases hjk : (j.kind == "function") with
      | true =>
        have hkind : ((objOf lookup j).kind == "function") = true := by
          simp [objOf, get_object_from_json, hjk]
        have hba : bucketAppend b (objOf lookup j) =
            { b with functionGroup := b.functionGroup ++ [objOf lookup j] } := by
          unfold bucketAppend
          rw [hkind]
          simp
        have hk1 : keepAttr j = false := by simp [keepAttr, hjk]
        have hk2 : keepFun j = true := by simp [keepFun, hp, hjk]
        rw [hba, ih _ hrest]
        simp [hk1, hk2]
      | false =>
        have hkind : ((objOf lookup j).kind == "function") = false := by
          simp [objOf, get_object_from_json, hjk]
        have hba : bucketAppend b (objOf lookup j) =
            { b with attributeGroup := b.attributeGroup ++ [objOf lookup j] } := by
          unfold bucketAppend
          rw [hkind]
          simp
        have hk1 : keepAttr j = true := by simp [keepAttr, hp, hjk]
        have hk2 : keepFun j = false := by simp [keepFun, hjk]
        rw [hba, ih _ hrest]
        simp [hk1, hk2]

/-- C7: doclets keep their supplied relative order inside each sub-bucket
(each sub-bucket is exactly the kept doclets of that kind, in input order),
and the full-content directive renders one rst chunk per doclet in that
order, with the whole attribute sub-bucket before the whole function
sub-bucket. -/
theorem claim7_order_preserved (lookup : Doclet → Obj)
    (renderF renderA : Obj → String) (value : List Doclet) (b : Bucket)
    (docs : JsDocs) (mod : String) (bu : Bucket)
    (hname : ∀ j ∈ value, nonPrivate j = true → (lookup j).name.data ≠ [])
    (hlook : js_docs_lookup docs mod = some bu) :
    processGroup lookup b value = some
      { attributeGroup :=
          b.attributeGroup ++ (value.filter keepAttr).map (objOf lookup)
        functionGroup :=
          b.functionGroup ++ (value.filter keepFun).map (objOf lookup) } ∧
    jsDocContent_run renderF renderA docs mod = some
      [[".. js:module:: " ++ mod],
       bu.attributeGroup.map (get_rst renderF renderA),
       bu.functionGroup.map (get_rst renderF renderA)] := by
  refine ⟨processGroup_char lookup value b hname, ?_⟩
  unfold jsDocContent_run
  rw [hlook]
  rfl

/-- Witness for C7 on a concrete group and the `"globals"` bucket. -/
theorem claim7_witness :
    processGroup demoLookup get_val [dFoo, dBar, dSecret] = some
      { attributeGroup := get_val.attributeGroup ++
          ([dFoo, dBar, dSecret].filter keepAttr).map (objOf demoLookup)
        functionGroup := get_val.functionGroup ++
          ([dFoo, dBar, dSecret].filter keepFun).map (objOf demoLookup) } ∧
    jsDocContent_run (fun o => o.name) (fun o => o.name) demoDocs "globals" =
      some [[".. js:module:: " ++ "globals"],
        demoDocs.globals.attributeGroup.map
          (get_rst (fun o => o.name) (fun o => o.name)),
        demoDocs.globals.functionGroup.map
          (get_rst (fun o => o.name) (fun o => o.name))] :=
  claim7_order_preserved demoLookup (fun o => o.name) (fun o => o.name)
    [dFoo, dBar, dSecret] get_val demoDocs "globals" demoDocs.globals
    (by decide) rfl

/-- C8: for a bucket built by the categorizer, the summary directive emits,
per sub-bucket in attribute-then-function order, nothing at all when the
sub-bucket is empty and otherwise exactly one heading followed by one table,
whose row count equals the number of retained non-private doclets of that
kind in the bucket's source group. -/
theorem claim8_summary_tables (lookup : Doclet → Obj) (sigOf : Obj → String)
    (ext : String → String) (value : List Doclet) (docs : JsDocs)
    (mod : String) (b : Bucket)
    (hname : ∀ j ∈ value, nonPrivate j = true → (lookup j).name.data ≠ [])
    (hproc : processGroup lookup get_val value = some b)
    (hlook : js_docs_lookup docs mod = some b) :
    jsDocSummary_run sigOf ext docs mod = some (
      (if b.attributeGroup.isEmpty then []
       else [SummaryNode.heading "Attributes:",
             SummaryNode.table
               (get_summary_table sigOf ext mod b.attributeGroup)]) ++
      (if b.functionGroup.isEmpty then []
       else [SummaryNode.heading "Functions:",
             SummaryNode.table
               (get_summary_table sigOf ext mod b.functionGroup)])) ∧
    (get_summary_table sigOf ext mod b.attributeGroup).length =
      value.countP keepAttr ∧
    (get_summary_table sigOf ext mod b.functionGroup).length =
      value.countP keepFun := by
  have hchar := processGroup_char lookup value get_val hname
  rw [hproc] at hchar
  have hb := Option.some.inj hchar
  have e1 : pyTitle "attribute" ++ "s:" = "Attributes:" := by decide
  have e2 : pyTitle "function" ++ "s:" = "Functions:" := by decide
  refine ⟨?_, ?_, ?_⟩
  · unfold jsDocSummary_run
    rw [hlook]
    simp [e1, e2]
  · rw [hb]
    simp [get_summary_table, get_val, List.countP_eq_length_filter]
  · rw [hb]
    simp [get_summary_table, get_val, List.countP_eq_length_filter]

/-- Witness for C8 on a concrete bucket: one non-empty attribute sub-bucket
(one row) and one non-empty function sub-bucket (one row). -/
theorem claim8_witness :
    jsDocSummary_run (fun o => o.name) id demoDocs "globals" = some (
      (if demoDocs.globals.attributeGroup.isEmpty then []
       else [SummaryNode.heading "Attributes:",
             SummaryNode.table (get_summary_table (fun o => o.name) id
               "globals" demoDocs.globals.attributeGroup)]) ++
      (if demoDocs.globals.functionGroup.isEmpty then []
       else [SummaryNode.heading "Functions:",
             SummaryNode.table (get_summary_table (fun o => o.name) id
               "globals" demoDocs.globals.functionGroup)])) ∧
    (get_summary_table (fun o => o.name) id "globals"
        demoDocs.globals.attributeGroup).length =
      [dFoo, dBar, dSecret].countP keepAttr ∧
    (get_summary_table (fun o => o.name) id "globals"
        demoDocs.globals.functionGroup).length =
      [dFoo, dBar, dSecret].countP keepFun :=
  claim8_summary_tables demoLookup (fun o => o.name) id [dFoo, dBar, dSecret]
    demoDocs "globals" demoDocs.globals (by decide) (by decide) rfl

/-- The fuel argument of `pyReplaceF` is irrelevant once it covers the input
length. -/
theorem pyReplaceF_irrel :
    ∀ (f g : Nat) (s old new : List Char), s.length ≤ f → s.length ≤ g →
      pyReplaceF f s old new = pyReplaceF g s old new := by
  intro f
  induction f with
  | zero =>
    intro g s old new h1 _
    have hs : s = [] := List.eq_nil_of_length_eq_zero (Nat.le_zero.mp h1)
    subst hs
    cases g <;> rfl
  | succ f ih =>
    intro g s old new h1 h2
    cases s with
    | nil => cases g <;> rfl
    | cons c t =>
      cases g with
      | zero => exact absurd h2 (by simp)
      | succ g2 =>
        have ht1 : t.length ≤ f := Nat.succ_le_succ_iff.mp h1
        have ht2 : t.length ≤ g2 := Nat.succ_le_succ_iff.mp h2
        simp only [pyReplaceF]
        cases hc : (old.isPrefixOf (c :: t) && !old.isEmpty) with
        | false =>
          simp only [hc, Bool.false_eq_true, if_false]
          rw [ih g2 t old new ht1 ht2]
        | true =>
          simp only [hc, if_true]
          have hd : ((c :: t).drop old.length).length ≤ t.length := by
            have ho : old.isEmpty = false := by
              cases hoe : old.isEmpty with
              | false => rfl
              | true => rw [hoe] at hc; simp at hc
            have hol : 1 ≤ old.length := by
              cases old with
              | nil => cases ho
              | cons x xs => simp
            simp only [List.length_drop, List.length_cons]
            omega
          rw [ih g2 _ old new (le_trans hd ht1) (le_trans hd ht2)]

/-- `pyReplace` at a matching position. -/
theorem pyReplace_matched (c : Char) (t old new : List Char)
    (hne : old.isEmpty = false) (h : old.isPrefixOf (c :: t) = true) :
    pyReplace (c :: t) old new =
      new ++ pyReplace ((c :: t).drop old.length) old new := by
  show pyReplaceF (t.length + 1) (c :: t) old new = _
  have hc : (old.isPrefixOf (c :: t) && !old.isEmpty) = true := by
    rw [h, hne]
    rfl
  simp only [pyReplaceF, hc, if_true]
  have hd : ((c :: t).drop old.length).length ≤ t.length := by
    have hol : 1 ≤ old.length := by
      cases old with
      | nil => cases hne
      | cons x xs => simp
    simp only [List.length_drop, List.length_cons]
    omega
  rw [pyReplaceF_irrel t.length _ _ old new hd (le_refl _)]
  rfl

/-- `pyReplace` at a matching position, for a non-empty list in any form. -/
theorem pyReplace_matched2 (s old new : List Char)
    (hne : old.isEmpty = false) (hs : s ≠ []) (h : old.isPrefixOf s = true) :
    pyReplace s old new = new ++ pyReplace (s.drop old.length) old new := by
  cases s with
  | nil => exact absurd rfl hs
  | cons c t => exact pyReplace_matched c t old new hne h

/-- `pyReplace` at a non-matching position. -/
theorem pyReplace_unmatched (c : Char) (t old new : List Char)
    (h : old.isPrefixOf (c :: t) = false) :
    pyReplace (c :: t) old new = c :: pyReplace t old new := by
  show pyReplaceF (t.length + 1) (c :: t) old new = _
  have hc : (old.isPrefixOf (c :: t) && !old.isEmpty) = false := by
    rw [h]
    rfl
  simp only [pyReplaceF, hc, Bool.false_eq_true, if_false]
  rfl

/-- Escaping every colon with `stem ++ [':']` is the structural map
`escSpec`. -/
theorem esc_eq_escSpec (stem : List Char) :
    ∀ s : List Char, pyReplace s [':'] (stem ++ [':']) = escSpec stem s := by
  intro s
  induction s with
  | nil => rfl
  | cons c t ih =>
    by_cases hc : c = ':'
    · subst hc
      have hp : ([':'] : List Char).isPrefixOf (':' :: t) = true := by
        simp [List.isPrefixOf]
      rw [pyReplace_matched ':' t [':'] (stem ++ [':']) rfl hp]
      show (stem ++ [':']) ++ pyReplace t [':'] (stem ++ [':']) = _
      rw [ih]
      simp [escSpec]
    · have hb : (':' == c) = false := beq_eq_false_iff_ne.mpr (Ne.symm hc)
      have hp : ([':'] : List Char).isPrefixOf (c :: t) = false := by
        simp [List.isPrefixOf, hb]
      rw [pyReplace_unmatched c t [':'] (stem ++ [':']) hp, ih]
      simp [escSpec, hc]

/-- A string splits at its first colon in only one way. -/
theorem colon_split_unique :
    ∀ (p1 q1 p2 q2 : List Char),
      (∀ a ∈ p1, a ≠ ':') → (∀ a ∈ p2, a ≠ ':') →
      p1 ++ ':' :: q1 = p2 ++ ':' :: q2 → p1 = p2 ∧ q1 = q2 := by
  intro p1
  induction p1 with
  | nil =>
    intro q1 p2 q2 _ h2 he
    cases p2 with
    | nil =>
      constructor
      · rfl
      · injection he
    | cons d p2t =>
      exfalso
      injection he with h3 _
      exact h2 d (List.mem_cons_self d p2t) h3.symm
  | cons a p1t ih =>
    intro q1 p2 q2 h1 h2 he
    cases p2 with
    | nil =>
      exfalso
      injection he with h3 _
      exact h1 a (List.mem_cons_self a p1t) h3
    | cons d p2t =>
      injection he with h3 h4
      obtain ⟨hA, hB⟩ := ih q1 p2t q2
        (fun x hx => h1 x (List.mem_cons_of_mem a hx))
        (fun x hx => h2 x (List.mem_cons_of_mem d hx)) h4
      exact ⟨by rw [h3, hA], hB⟩

/-- In an escaped string, every colon is immediately preceded by the stem:
a colon-free prefix `u` followed by `':'` must end in `stem`. -/
theorem colon_preceded (stem : List Char) (hcf : ∀ a ∈ stem, a ≠ ':') :
    ∀ (t u : List Char), (∀ a ∈ u, a ≠ ':') →
      (u ++ [':']) <+: escSpec stem t → stem <:+ u := by
  intro t
  induction t with
  | nil =>
    intro u _ hp
    exfalso
    have h2 : u ++ [':'] = [] := List.prefix_nil.mp hp
    simp at h2
  | cons c t' ih =>
    intro u hu hp
    by_cases hc : c = ':'
    · subst hc
      have hE : escSpec stem (':' :: t') = stem ++ ':' :: escSpec stem t' := by
        simp [escSpec]
      rw [hE] at hp
      obtain ⟨w, hw⟩ := hp
      have hw2 : u ++ ':' :: w = stem ++ ':' :: escSpec stem t' := by
        simpa [List.append_assoc] using hw
      obtain ⟨hA, _⟩ :=
        colon_split_unique u w stem (escSpec stem t') hu hcf hw2
      rw [hA]
    · have hE : escSpec stem (c :: t') = c :: escSpec stem t' := by
        simp [escSpec, hc]
      rw [hE] at hp
      cases u with
      | nil =>
        exfalso
        obtain ⟨w, hw⟩ := hp
        have hw2 : ':' :: w = c :: escSpec stem t' := by simpa using hw
        injection hw2 with h3 _
        exact hc h3.symm
      | cons a u' =>
        obtain ⟨w, hw⟩ := hp
        have hw2 : a :: ((u' ++ [':']) ++ w) = c :: escSpec stem t' := by
          simpa [List.append_assoc] using hw
        injection hw2 with _ h4
        have hs := ih u' (fun x hx => hu x (List.mem_cons_of_mem a hx)) ⟨w, h4⟩
        obtain ⟨pfx, hpfx⟩ := hs
        exact ⟨a :: pfx, by rw [← hpfx]; rfl⟩

/-- Unescaping undoes escaping exactly: replacing every occurrence of
`stem ++ [':']` by `':'` in an escaped string recovers the original. -/
theorem unesc_escSpec (stem : List Char) (hne : stem ≠ [])
    (hcf : ∀ a ∈ stem, a ≠ ':') :
    ∀ s : List Char,
      pyReplace (escSpec stem s) (stem ++ [':']) [':'] = s := by
  intro s
  induction s with
  | nil => rfl
  | cons c t ih =>
    by_cases hc : c = ':'
    · subst hc
      have hE : escSpec stem (':' :: t) =
          (stem ++ [':']) ++ escSpec stem t := by
        simp [escSpec]
      rw [hE]
      have hoe : (stem ++ [':']).isEmpty = false := by
        cases h : stem ++ [':'] with
        | nil => exact absurd h (by simp)
        | cons x xs => rfl
      have hs : (stem ++ [':']) ++ escSpec stem t ≠ [] := by simp
      have hpre : (stem ++ [':']).isPrefixOf
          ((stem ++ [':']) ++ escSpec stem t) = true :=
        List.isPrefixOf_iff_prefix.mpr (List.prefix_append _ _)
      rw [pyReplace_matched2 _ _ _ hoe hs hpre, List.drop_left, ih]
      rfl
    · have hE : escSpec stem (c :: t) = c :: escSpec stem t := by
        simp [escSpec, hc]
      rw [hE]
      have hnp : (stem ++ [':']).isPrefixOf (c :: escSpec stem t) = false := by
        cases hb : (stem ++ [':']).isPrefixOf (c :: escSpec stem t) with
        | false => rfl
        | true =>
          exfalso
          have hpre : (stem ++ [':']) <+: c :: escSpec stem t :=
            List.isPrefixOf_iff_prefix.mp hb
          obtain ⟨d, st, hst⟩ : ∃ d st, stem = d :: st := by
            cases stem with
            | nil => exact absurd rfl hne
            | cons d st => exact ⟨d, st, rfl⟩
          rw [hst] at hpre
          obtain ⟨w, hw⟩ := hpre
          have hw2 : d = c ∧ st ++ ':' :: w = escSpec (d :: st) t := by
            simpa [List.append_assoc] using hw
          have hpre2 : (st ++ [':']) <+: escSpec stem t := by
            rw [hst]
            exact ⟨w, by simpa [List.append_assoc] using hw2.2⟩
          have hstcf : ∀ x ∈ st, x ≠ ':' := by
            intro x hx
            exact hcf x (by rw [hst]; exact List.mem_cons_of_mem d hx)
          have hsuf := colon_preceded stem hcf t st hstcf hpre2
          have hlen := List.IsSuffix.length_le hsuf
          rw [hst] at hlen
          simp at hlen
      rw [pyReplace_unmatched c _ _ _ hnp, ih]

/-- The escape/unescape pair of `extract_summary` is a perfect round-trip on
character lists. -/
theorem roundtrip_data (stem : List Char) (hne : stem ≠ [])
    (hcf : ∀ a ∈ stem, a ≠ ':') (s : List Char) :
    pyReplace (pyReplace s [':'] (stem ++ [':'])) (stem ++ [':']) [':'] = s := by
  rw [esc_eq_escSpec]
  exact unesc_escSpec stem hne hcf s

/-- C9 counterexample: with the library extraction behaving as the identity,
the description equal to the escape token itself produces a final summary
that still contains the escape token (indeed the summary is the token),
refuting "the final summary contains no occurrence of the escape token".
(The token ends in a colon, so escaping the token's own colon and unescaping
again reproduces the token.) -/
theorem claim9_counterexample :
    extract_summary_model id colon_esc = colon_esc ∧
    hasSubstr (extract_summary_model id colon_esc).data colon_esc.data =
      true := by
  constructor
  · decide
  · decide

/-- C9 amended: the summary is computed as unescape-extract-escape exactly as
the claim states, and the escape/unescape pair is a perfect round-trip: with
the extraction treated as the identity, every description — colons included —
is returned unchanged.  The "contains no occurrence of the escape token"
part holds only when neither the description nor the extraction output
supplies token-forming text (see the counterexample). -/
theorem claim9_amended (descr : String) :
    extract_summary_model id descr = descr := by
  have h2 : colon_esc.data = escStem ++ [':'] := by decide
  have h3 : escStem ≠ [] := by decide
  have h4 : ∀ a ∈ escStem, a ≠ ':' := by decide
  unfold extract_summary_model pyReplaceStr
  simp only [id_eq]
  rw [h2, roundtrip_data escStem h3 h4 descr.data]
